import Mathlib

/-!
# nim4/license : directory resolver, classification harness and compliance driver

A shallow embedding of `src/classifier/classifier.go`, `src/classifier/backend.go`
and of the flag handling of `src/cmd/license-check/license-check.go`.

Conventions of the embedding:

* A Go `map` used as a set or as a dictionary is a list of its keys (or of its
  key/value pairs); the order of the list is the order in which a `range` over the
  map yields them.  Orders the Go runtime is free to choose are either part of the
  universally quantified input (the directory tree) or an explicit field of `World`.
* The filesystem, the license classifier library, the comment parser and the context
  are external to the repository; they are the fields of `World`.
* `Backend.ClassifyLicenses` starts one task per file; the embedding runs the tasks one
  after the other in the order they are started.  The statements about it concern the
  set of reported errors and the matches per file, which no schedule changes.
* `strings.ToUpper` depends on the Unicode case tables; the resolver takes it as the
  parameter `upper`, a run takes it from `World.toUpper`, and the examples, whose names
  are ASCII, use `asciiUpper`.
* An `error` value is a `GoError`.
-/

namespace License

/-! ## Functions of the Go standard library that the source calls -/

/-- The value of `strings.ToUpper` on a string of ASCII characters: every lower-case
letter is replaced by its upper-case letter, every other character is kept.  On other
characters `strings.ToUpper` follows the Unicode case tables, which this function does
not: the embedding takes `strings.ToUpper` as the parameter `upper` (in a run, the
field `World.toUpper`), and this function stands for it only in the examples, whose
names are all ASCII. -/
def asciiUpper (s : String) : String := ⟨s.data.map Char.toUpper⟩

/-- Model of `strings.TrimPrefix s p`: `s` without the leading `p` when `s` starts
with `p`, and `s` itself otherwise. -/
def trimLeading (s p : String) : String :=
  if p.data.isPrefixOf s.data then ⟨s.data.drop p.data.length⟩ else s

/-- Model of `strings.Split s ","` on the characters of `s`; `cur` is the piece
being read. -/
def splitCommaAux : List Char → List Char → List String
  | [], cur => [⟨cur⟩]
  | ch :: rest, cur =>
    if ch = ',' then ⟨cur⟩ :: splitCommaAux rest [] else splitCommaAux rest (cur ++ [ch])

/-- Model of `strings.Split s ","`. -/
def splitComma (s : String) : List String := splitCommaAux s.data []

/-- The inner loop of the `..` case of `path/filepath.Clean`:
`for out.w > dotdot && out.index(out.w) != '/' { out.w-- }`, started at `w`. -/
def cleanBacktrack (out : List Char) (dotdot : Nat) : Nat → Nat
  | 0 => 0
  | w + 1 =>
    if w + 1 > dotdot ∧ out.getD (w + 1) '/' ≠ '/' then cleanBacktrack out dotdot w else w + 1

/-- The main loop of `path/filepath.Clean` (Unix): `rest` is `path[r:]`, `out` the
buffer written so far, `dotdot` the index up to which `..` may not backtrack.  The
first argument bounds the number of iterations and is at least the length of `rest`. -/
def cleanLoop (rooted : Bool) : Nat → List Char → List Char → Nat → List Char
  | 0, _, out, _ => out
  | _ + 1, [], out, _ => out
  | fuel + 1, ch :: rest, out, dotdot =>
    if ch = '/' then
      cleanLoop rooted fuel rest out dotdot
    else if ch = '.' ∧ (rest = [] ∨ rest.head? = some '/') then
      cleanLoop rooted fuel rest out dotdot
    else if ch = '.' ∧ rest.head? = some '.' ∧
        (rest.tail = [] ∨ rest.tail.head? = some '/') then
      if out.length > dotdot then
        cleanLoop rooted fuel rest.tail
          (out.take (cleanBacktrack out dotdot (out.length - 1))) dotdot
      else if !rooted then
        let out1 := if out.length > 0 then out ++ ['/'] else out
        let out2 := out1 ++ ['.', '.']
        cleanLoop rooted fuel rest.tail out2 out2.length
      else
        cleanLoop rooted fuel rest.tail out dotdot
    else
      let out1 :=
        if (rooted && out.length != 1) || (!rooted && out.length != 0) then out ++ ['/']
        else out
      cleanLoop rooted fuel (rest.dropWhile (fun x => x != '/'))
        (out1 ++ ch :: rest.takeWhile (fun x => x != '/')) dotdot

/-- Model of `path/filepath.Clean` on Unix. -/
def filepathClean (path : String) : String :=
  match path.data with
  | [] => "."
  | ch :: rest =>
    let rooted := decide (ch = '/')
    let out :=
      if rooted then cleanLoop true (rest.length + 1) rest ['/'] 1
      else cleanLoop false (rest.length + 2) (ch :: rest) [] 0
    if out.length = 0 then "." else ⟨out⟩

/-- Model of `path/filepath.Join a b` on Unix: empty elements are ignored, the others
are joined with a slash and the result is cleaned. -/
def filepathJoin (a b : String) : String :=
  if a ≠ "" then filepathClean (a ++ "/" ++ b)
  else if b ≠ "" then filepathClean b
  else ""

/-! ## Data model -/

/-- An `error` value: one made by `errors.New`, the one `classifyLicense` makes with
`fmt.Errorf("unable to read %q: %v", filename, err)`, or one handed over by the
environment (`ctx.Err()`, `licenseclassifier.New`, `ioutil.WriteFile`). -/
inductive GoError where
  | errorsNew (text : String)
  | unableToRead (filename : String) (cause : String)
  | external (text : String)
  deriving DecidableEq, Repr

/-- What `ioutil.ReadDir` reports for a directory, split the way `mustDir` splits it:
the names of the entries that are not directories, and the subdirectories, each with
its name and its own content.  The subdirectories are listed in the order in which a
`range` over the `dirs` set built from them visits them.  (On a filesystem the names in
one directory are distinct and not empty; a statement that needs this says so.) -/
inductive DirTree where
  | node (files : List String) (dirs : List (String × DirTree))

/-- Names of the entries of a directory that are not directories. -/
def DirTree.files : DirTree → List String
  | .node files _ => files

/-- Subdirectories of a directory. -/
def DirTree.dirs : DirTree → List (String × DirTree)
  | .node _ dirs => dirs

/-- The struct `Dir`; a `set` is the list of its keys. -/
structure Dir where
  path : String
  dirs : List String
  files : List String

/-- The struct `Classifier`. -/
structure Classifier where
  licenseConfigFile : String
  fileNames : List String

/-- A match returned by `licenseclassifier.License.MultipleMatch`. -/
structure Match where
  Name : String
  Confidence : Rat
  Offset : Int
  Extent : Int

/-- The struct `results.LicenseType`. -/
structure LicenseType where
  Filename : String
  Name : String
  Confidence : Rat
  Offset : Int
  Extent : Int

/-- The struct `Backend`: the result collection (the mutex and the classifier handle
carry no data of their own; the classifier is `World.multipleMatch`). -/
structure Backend where
  results : List LicenseType

/-- The report `output` of `Process`, a `map[string][]string`. -/
abbrev Report := List (String × List String)

/-- Everything outside the repository that a run depends on. -/
structure World where
  /-- The function `strings.ToUpper`. -/
  toUpper : String → String
  /-- The error of `licenseclassifier.New`, if it fails. -/
  newBackendErr : Option GoError
  /-- The value of `ctx.Err()` when the `select` of `ClassifyLicensesWithContext` takes
  the `ctx.Done()` arm; `none` when it takes the `done` arm. -/
  ctxDone : Option GoError
  /-- The function `ioutil.ReadFile`: the contents, or the text of the error. -/
  readFile : String → Except String String
  /-- The function `language.ClassifyLanguage`; `none` is `language.Unknown`. -/
  classifyLanguage : String → Option Nat
  /-- The chunks of `commentparser.Parse(contents, lang).ChunkIterator()`. -/
  commentChunks : String → Nat → List String
  /-- The function `MultipleMatch(contents, false)` of the classifier. -/
  multipleMatch : String → List Match
  /-- The lines `bufio.Scanner` yields for a file, `none` when `os.Open` fails. -/
  scanLines : String → Option (List String)
  /-- The error of `ioutil.WriteFile` for an output path and a report, if it fails. -/
  writeFile : String → Report → Option GoError
  /-- The order in which `range licences` yields the entries of the map. -/
  rangeLicences : List (String × String) → List (String × String)
  /-- The order in which `range output` yields the buckets of the report. -/
  rangeOutput : Report → Report

/-! ## Maps -/

/-- The assignment `m[k] = v` on a `map[string]string`. -/
def mapSet : List (String × String) → String → String → List (String × String)
  | [], k, v => [(k, v)]
  | (k', v') :: rest, k, v =>
    if k' = k then (k', v) :: rest else (k', v') :: mapSet rest k v

/-- The lookup `m[k]` with its presence flag. -/
def mapGet {β : Type} : List (String × β) → String → Option β
  | [], _ => none
  | (k', v') :: rest, k => if k' = k then some v' else mapGet rest k

/-- The statement `output[k] = append(output[k], v)`. -/
def mapAppend : Report → String → String → Report
  | [], k, v => [(k, [v])]
  | (k', vs) :: rest, k, v =>
    if k' = k then (k', vs ++ [v]) :: rest else (k', vs) :: mapAppend rest k v

/-! ## classifier.go : the directory resolver -/

/-- The function `mustDir` for a directory that can be read, with `upper` for
`strings.ToUpper`: subdirectory names are kept as they are, the other names are
upper-cased.  (An unreadable directory ends the
process through `log.Fatalf` and is outside the embedding.) -/
def mustDir (upper : String → String) (path : String) (t : DirTree) : Dir :=
  { path := path
    dirs := t.dirs.map Prod.fst
    files := t.files.map upper }

/-- The loop of `isLicensed` over the configured file names still to be tried: the
first one that is a key of `f`, or the empty string. -/
def isLicensedIn (f : List String) : List String → String
  | [] => ""
  | filename :: rest => if filename ∈ f then filename else isLicensedIn f rest

/-- The method `Classifier.isLicensed`. -/
def Classifier.isLicensed (c : Classifier) (f : List String) : String :=
  isLicensedIn f c.fileNames

/-- Outcome of the `for subDir := range dir.dirs` loop of `hasLicense`. -/
structure RangeResult where
  /-- Is `false` when the loop left through `return false`. -/
  completed : Bool
  /-- The accumulator `*licenceFiles` after the loop. -/
  licenceFiles : List String
  /-- The names of the subdirectories the loop body ran for, in order. -/
  visited : List String

mutual
/-- The call `c.hasLicense(mustDir(path), licenceFiles)`, where `t` is the content of
the directory at `path` and `upper` is `strings.ToUpper`: the returned flag and the accumulator afterwards.  Both call
sites of `hasLicense` in the source have this form. -/
def hasLicense (upper : String → String) (c : Classifier) (path : String) : DirTree → List String → Bool × List String
  | .node files subdirs, licenceFiles =>
    let dir := mustDir upper path (.node files subdirs)
    let licenceFile := c.isLicensed dir.files
    if licenceFile ≠ "" then
      (true, licenceFiles ++ [filepathJoin dir.path licenceFile])
    else
      let r := rangeDirs upper c dir.path subdirs licenceFiles []
      if r.completed then (decide (dir.dirs.length > 0), r.licenceFiles)
      else (false, r.licenceFiles)
/-- The loop `for subDir := range dir.dirs` of `hasLicense` over the subdirectories
still to be visited; the last argument collects the names already visited. -/
def rangeDirs (upper : String → String) (c : Classifier) (dirPath : String) :
    List (String × DirTree) → List String → List String → RangeResult
  | [], licenceFiles, seen => ⟨true, licenceFiles, seen⟩
  | (subDir, t) :: rest, licenceFiles, seen =>
    let path := filepathJoin dirPath subDir
    let r := hasLicense upper c path t licenceFiles
    if !r.1 then ⟨false, r.2, seen ++ [subDir]⟩
    else rangeDirs upper c dirPath rest r.2 (seen ++ [subDir])
end

/-- The flag `hasLicense` returns for the directory at `path`. -/
def found (upper : String → String) (c : Classifier) (path : String) (t : DirTree) : Bool :=
  (hasLicense upper c path t []).1

mutual
/-- The flag of `hasLicense` as a function of the tree alone, used to reason about it:
a direct match, or a non-empty list of subdirectories that all resolve. -/
def licensed (upper : String → String) (c : Classifier) : DirTree → Bool
  | .node files subdirs =>
    if c.isLicensed (files.map upper) ≠ "" then true
    else allLicensed upper c subdirs && decide (subdirs.length > 0)
/-- Every subdirectory of the list resolves. -/
def allLicensed (upper : String → String) (c : Classifier) : List (String × DirTree) → Bool
  | [] => true
  | (_, t) :: rest => licensed upper c t && allLicensed upper c rest
end

/-! ## backend.go : the classification backend -/

/-- The function `NewBackend`. -/
def NewBackend (w : World) : Except GoError Backend :=
  match w.newBackendErr with
  | some e => .error e
  | none => .ok ⟨[]⟩

/-- The closure `matchLoop` of `classifyLicense`: one result is appended for every
match the classifier reports for `contents`. -/
def matchLoop (w : World) (filename : String) (b : Backend) (contents : String) : Backend :=
  (w.multipleMatch contents).foldl
    (fun b m => ⟨b.results ++ [⟨filename, m.Name, m.Confidence, m.Offset, m.Extent⟩]⟩) b

/-- The method `Backend.classifyLicense`: the backend afterwards and the returned
error. -/
def classifyLicense (w : World) (b : Backend) (filename : String) : Backend × Option GoError :=
  match w.readFile filename with
  | .error cause => (b, some (.unableToRead filename cause))
  | .ok contents =>
    match w.classifyLanguage filename with
    | none => (matchLoop w filename b contents, none)
    | some lang => ((w.commentChunks contents lang).foldl (matchLoop w filename) b, none)

/-- The method `Backend.ClassifyLicenses` under the schedule in which the tasks run
one after the other in the order they are started: the backend afterwards and the
errors collected from the tasks. -/
def ClassifyLicenses (w : World) : Backend → List String → Backend × List GoError
  | b, [] => (b, [])
  | b, filename :: rest =>
    let r := classifyLicense w b filename
    let rs := ClassifyLicenses w r.1 rest
    match r.2 with
    | some err => (rs.1, err :: rs.2)
    | none => rs

/-- The method `Backend.ClassifyLicensesWithContext`: when the `ctx.Done()` arm is
taken the context's error is appended to the still empty error list and nothing the
tasks produce is looked at; otherwise the outcome of `ClassifyLicenses`. -/
def ClassifyLicensesWithContext (w : World) (b : Backend) (filenames : List String) :
    Backend × List GoError :=
  match w.ctxDone with
  | some err => (b, [err])
  | none => ClassifyLicenses w b filenames

/-- The method `Backend.GetResults`. -/
def Backend.GetResults (b : Backend) : List LicenseType := b.results

/-! ## classifier.go : classification and the compliance driver -/

/-- The loop `for _, r := range results { m[r.Filename] = r.Name }` of `classify`. -/
def licenceMap (results : List LicenseType) : List (String × String) :=
  results.foldl (fun m r => mapSet m r.Filename r.Name) []

/-- The function `classify`. -/
def classify (w : World) (files : List String) : Except GoError (List (String × String)) :=
  match NewBackend w with
  | .error err => .error err
  | .ok be =>
    let r := ClassifyLicensesWithContext w be files
    match r.2 with
    | err :: _ => .error err
    | [] =>
      let results := r.1.GetResults
      if results.length = 0 then .error (.errorsNew "couldn't classify license(s)")
      else .ok (licenceMap results)

/-- The method `Classifier.allowedLicenses`: the lines of the configuration file that
are neither empty nor start with `#`; the empty set when the file cannot be opened. -/
def Classifier.allowedLicenses (c : Classifier) (w : World) : List String :=
  match w.scanLines c.licenseConfigFile with
  | none => []
  | some lines => lines.filter (fun license => !(license.length = 0 || license.data.head? = some '#'))

/-- The state of the two nested loops at the start of `Process`: the report and the
accumulator `licenseFiles`. -/
structure Scan where
  output : Report
  licenseFiles : List String

/-- The loop `for repo := range repos.dirs` of `Process`, for the host directory at
`reposPath`. -/
def scanRepos (upper : String → String) (c : Classifier) (vendorPath reposPath : String) :
    List (String × DirTree) → Scan → Scan
  | [], s => s
  | (repo, t) :: rest, s =>
    let repoPath := filepathJoin reposPath repo
    let r := hasLicense upper c repoPath t s.licenseFiles
    let out :=
      if !r.1 then mapAppend s.output "Unknown" (trimLeading repoPath vendorPath)
      else s.output
    scanRepos upper c vendorPath reposPath rest ⟨out, r.2⟩

/-- The loop `for host := range hosts.dirs` of `Process`, where `hostsPath` is
`hosts.path`. -/
def scanHosts (upper : String → String) (c : Classifier) (vendorPath hostsPath : String) :
    List (String × DirTree) → Scan → Scan
  | [], s => s
  | (host, t) :: rest, s =>
    let path := filepathJoin hostsPath host
    let repos := mustDir upper path t
    scanHosts upper c vendorPath hostsPath rest (scanRepos upper c vendorPath repos.path t.dirs s)

/-- The loop `for path, licence := range licences` of `Process`, over the entries in
the order they are yielded. -/
def bucketLicences (vendorPath : String) : List (String × String) → Report → Report
  | [], output => output
  | (path, licence) :: rest, output =>
    bucketLicences vendorPath rest (mapAppend output licence (trimLeading path vendorPath))

/-- The loop `for licence, dependencies := range output` of `Process`, over the buckets
in the order they are yielded: the value of `err` afterwards and the license names for
which the violation is logged. -/
def checkAllowed (allowed : List String) :
    Report → Option GoError × List String → Option GoError × List String
  | [], s => s
  | (licence, _) :: rest, s =>
    if licence ∉ allowed then
      checkAllowed allowed rest (some (.errorsNew "forbidden license"), s.2 ++ [licence])
    else checkAllowed allowed rest s

/-- What a call of `Process` leaves behind. -/
structure ProcessResult where
  /-- The returned error. -/
  err : Option GoError
  /-- The map `output` when `Process` returns. -/
  output : Report
  /-- The batch `licenseFiles` handed to `classify`. -/
  licenseFiles : List String
  /-- The report passed to `ioutil.WriteFile`, when it is called. -/
  written : Option Report
  /-- The license names logged as forbidden, in the order of the log. -/
  flagged : List String

/-- The method `Classifier.Process` on the vendor directory whose content is `root`. -/
def Classifier.Process (c : Classifier) (w : World) (vendorPath outputPath : String)
    (root : DirTree) : ProcessResult :=
  let hosts := mustDir w.toUpper vendorPath root
  let s := scanHosts w.toUpper c vendorPath hosts.path root.dirs ⟨[], []⟩
  match classify w s.licenseFiles with
  | .error err => ⟨some err, s.output, s.licenseFiles, none, []⟩
  | .ok licences =>
    let output := bucketLicences vendorPath (w.rangeLicences licences) s.output
    let werr := if outputPath ≠ "" then w.writeFile outputPath output else none
    let written := if outputPath ≠ "" then some output else none
    match werr with
    | some err => ⟨some err, output, s.licenseFiles, written, []⟩
    | none =>
      let allowed := c.allowedLicenses w
      if allowed.length > 0 then
        let r := checkAllowed allowed (w.rangeOutput output) (none, [])
        ⟨r.1, output, s.licenseFiles, written, r.2⟩
      else ⟨none, output, s.licenseFiles, written, []⟩

/-! ## license-check.go : the flags -/

/-- The classifier `main` builds: `classifier.New(configPath, strings.Split(files, ","))`
for the value `files` of the flag `-files`. -/
def classifierOfFlags (configPath files : String) : Classifier :=
  ⟨configPath, splitComma files⟩

/-- The default value of the flag `-files`. -/
def defaultFiles : String := "LICENSE,LICENSE.TXT,LICENSE.MD,COPYING"

/-! ## Auxiliary definitions used in the statements -/

/-- The error `classifyLicense` returns for a file, if `ioutil.ReadFile` fails on it. -/
def readError (w : World) (filename : String) : Option GoError :=
  match w.readFile filename with
  | .error cause => some (.unableToRead filename cause)
  | .ok _ => none

/-- The file can be read. -/
def readable (w : World) (filename : String) : Bool :=
  (readError w filename).isNone

/-- The license name of the last match for `filename` in a result collection. -/
def lastName (results : List LicenseType) (filename : String) : Option String :=
  ((results.filter (fun r => r.Filename = filename)).getLast?).map LicenseType.Name

/-- The state of the scan with which the loops of `Process` end. -/
def vendorScan (upper : String → String) (c : Classifier) (vendorPath : String) (root : DirTree) : Scan :=
  scanHosts upper c vendorPath (mustDir upper vendorPath root).path root.dirs ⟨[], []⟩

/-- A classifier oracle for the examples: it knows the MIT and the GPL-3.0 texts. -/
def exampleMatch (contents : String) : List Match :=
  if contents = "MIT License" then [⟨"MIT", 1, 0, 11⟩]
  else if contents = "GNU GENERAL PUBLIC LICENSE Version 3" then [⟨"GPL-3.0", 1, 0, 36⟩]
  else if contents = "MIT License or Apache License 2.0" then
    [⟨"MIT", 1, 0, 11⟩, ⟨"Apache-2.0", 1, 15, 18⟩]
  else []

/-- A world for the examples: `fs` lists the readable files with their contents,
`config` is the content of the allow-list file if there is one; the backend starts,
the deadline does not fire, no file name is recognised as source code, writing the
report succeeds, maps are ranged over in the order of their lists and `strings.ToUpper`
is `asciiUpper`, the names of the examples being ASCII. -/
def exampleWorld (fs : List (String × String)) (config : Option (List String)) : World where
  toUpper := asciiUpper
  newBackendErr := none
  ctxDone := none
  readFile := fun p =>
    match mapGet fs p with
    | some contents => .ok contents
    | none => .error "open: no such file or directory"
  classifyLanguage := fun _ => none
  commentChunks := fun contents _ => [contents]
  multipleMatch := exampleMatch
  scanLines := fun _ => config
  writeFile := fun _ _ => none
  rangeLicences := fun m => m
  rangeOutput := fun m => m

/-- The vendor directory of the end-to-end scenario: `hostA/repoA` holds `LICENSE`,
`hostB/repoB` is empty. -/
def twoHosts : DirTree :=
  .node [] [("hostA", .node [] [("repoA", .node ["LICENSE"] [])]),
            ("hostB", .node [] [("repoB", .node [] [])])]

/-- A world with one readable file, `vendor/h/r/LICENSE`, that holds two license texts. -/
def dualWorld : World :=
  exampleWorld [("vendor/h/r/LICENSE", "MIT License or Apache License 2.0")] none

/-- A vendor directory with the repositories `h/m`, under MIT, and `h/g`, under
GPL-3.0. -/
def mitAndGpl : DirTree :=
  .node [] [("h", .node [] [("m", .node ["LICENSE"] []), ("g", .node ["COPYING"] [])])]

/-- The world for `mitAndGpl`, with an allow-list file that allows MIT only. -/
def mitAndGplWorld : World :=
  exampleWorld [("vendor/h/m/LICENSE", "MIT License"),
    ("vendor/h/g/COPYING", "GNU GENERAL PUBLIC LICENSE Version 3")]
    (some ["# allowed licenses", "", "MIT"])

/-- The world of the end-to-end scenario: the `LICENSE` of `repoA` is the MIT text. -/
def twoHostsWorld : World :=
  exampleWorld [("vendor/hostA/repoA/LICENSE", "MIT License")] none

/-- A vendor directory with one repository `h/r` without a license file of its own,
whose subdirectory `a` holds `LICENSE` and whose subdirectory `b` is empty, visited
in this order. -/
def halfLicensed : DirTree :=
  .node [] [("h", .node [] [("r", .node ["main.go"]
    [("a", .node ["LICENSE"] []), ("b", .node [] [])])])]

/-- The vendor directory `halfLicensed` with the subdirectories of `h/r` visited in the
other order, `b` before `a`. -/
def halfLicensedRev : DirTree :=
  .node [] [("h", .node [] [("r", .node ["main.go"]
    [("b", .node [] []), ("a", .node ["LICENSE"] [])])])]

/-- The world for `halfLicensed`: the `LICENSE` of `a` is the MIT text. -/
def halfLicensedWorld : World :=
  exampleWorld [("vendor/h/r/a/LICENSE", "MIT License")] none

/-- A vendor directory with one repository `h/r` whose license file is named
`License.txt` on disk. -/
def mixedCase : DirTree :=
  .node [] [("h", .node [] [("r", .node ["License.txt", "README"] [("sub", .node [] [])])])]

/-- The world for `mixedCase`: the file is readable under its name on disk only. -/
def mixedCaseWorld : World :=
  exampleWorld [("vendor/h/r/License.txt", "MIT License")] none

/-- A vendor directory with two repositories `h/a` and `h/b`, each holding `LICENSE`. -/
def twoRepos : DirTree :=
  .node [] [("h", .node [] [("a", .node ["LICENSE"] []), ("b", .node ["LICENSE"] [])])]

/-- The world for `twoRepos` in which the `LICENSE` of `a` cannot be read and the one
of `b` is the MIT text. -/
def twoReposWorld : World :=
  exampleWorld [("vendor/h/b/LICENSE", "MIT License")] none

/-! ## Lemmas on the library models and on maps -/

theorem isLicensedIn_eq_empty (f : List String) :
    ∀ names : List String, (∀ n ∈ names, n ∉ f) → isLicensedIn f names = ""
  | [], _ => rfl
  | n :: rest, h => by
    have hn : n ∉ f := h n (List.mem_cons_self _ _)
    have hr := isLicensedIn_eq_empty f rest (fun m hm => h m (List.mem_cons_of_mem _ hm))
    simp [isLicensedIn, hn, hr]

theorem isLicensedIn_mem (f : List String) :
    ∀ names : List String, isLicensedIn f names ≠ "" →
      isLicensedIn f names ∈ names ∧ isLicensedIn f names ∈ f
  | [], h => absurd rfl h
  | n :: rest, h => by
    by_cases hn : n ∈ f
    · simp [isLicensedIn, hn]
    · have hr : isLicensedIn f rest ≠ "" := by simpa [isLicensedIn, hn] using h
      have := isLicensedIn_mem f rest hr
      simp [isLicensedIn, hn, this.1, this.2]

theorem isLicensedIn_ne_empty (f : List String) (hf : "" ∉ f) :
    ∀ names : List String, (∃ n ∈ names, n ∈ f) → isLicensedIn f names ≠ ""
  | [], h => by simp at h
  | n :: rest, h => by
    by_cases hn : n ∈ f
    · have : n ≠ "" := fun e => hf (e ▸ hn)
      simpa [isLicensedIn, hn] using this
    · have hr : ∃ m ∈ rest, m ∈ f := by
        obtain ⟨m, hm, hmf⟩ := h
        rcases List.mem_cons.1 hm with e | hm'
        · exact absurd (e ▸ hmf) hn
        · exact ⟨m, hm', hmf⟩
      simpa [isLicensedIn, hn] using isLicensedIn_ne_empty f hf rest hr

/-! ## Lemmas on the resolver -/

mutual
theorem hasLicense_fst (upper : String → String) (c : Classifier) :
    ∀ (t : DirTree) (path : String) (acc : List String),
      (hasLicense upper c path t acc).1 = licensed upper c t
  | .node files subdirs, path, acc => by
    have ih := rangeDirs_completed upper c subdirs path acc []
    by_cases h : c.isLicensed (files.map upper) = ""
    · by_cases hc : (rangeDirs upper c path subdirs acc []).completed = true
      · simp [hasLicense, licensed, mustDir, DirTree.files, DirTree.dirs, h, hc, ← ih]
      · simp [hasLicense, licensed, mustDir, DirTree.files, DirTree.dirs, h, hc, ← ih]
    · simp [hasLicense, licensed, mustDir, DirTree.files, DirTree.dirs, h]
theorem rangeDirs_completed (upper : String → String) (c : Classifier) :
    ∀ (subdirs : List (String × DirTree)) (path : String) (acc seen : List String),
      (rangeDirs upper c path subdirs acc seen).completed = allLicensed upper c subdirs
  | [], _, _, _ => by simp [rangeDirs, allLicensed]
  | (name, t) :: rest, path, acc, seen => by
    have h1 := hasLicense_fst upper c t (filepathJoin path name) acc
    have h2 := rangeDirs_completed upper c rest path
      (hasLicense upper c (filepathJoin path name) t acc).2 (seen ++ [name])
    by_cases h : licensed upper c t = true
    · simp [rangeDirs, allLicensed, h1, h2, h]
    · simp [rangeDirs, allLicensed, h1, h]
end

theorem found_eq_licensed (upper : String → String) (c : Classifier) (path : String) (t : DirTree) :
    found upper c path t = licensed upper c t :=
  hasLicense_fst upper c t path []

theorem allLicensed_iff (upper : String → String) (c : Classifier) :
    ∀ subdirs : List (String × DirTree),
      allLicensed upper c subdirs = true ↔ ∀ d ∈ subdirs, licensed upper c d.2 = true
  | [] => by simp [allLicensed]
  | (name, t) :: rest => by
    simp [allLicensed, allLicensed_iff upper c rest]

theorem rangeDirs_append (upper : String → String) (c : Classifier) (path : String) (rest : List (String × DirTree)) :
    ∀ (pre : List (String × DirTree)) (acc seen : List String),
      allLicensed upper c pre = true →
      rangeDirs upper c path (pre ++ rest) acc seen =
        rangeDirs upper c path rest (rangeDirs upper c path pre acc seen).licenceFiles
          (seen ++ pre.map Prod.fst)
  | [], acc, seen, _ => by simp [rangeDirs]
  | (name, t) :: pre, acc, seen, h => by
    have ht : licensed upper c t = true := by
      simp [allLicensed] at h
      exact h.1
    have hp : allLicensed upper c pre = true := by
      simp [allLicensed] at h
      exact h.2
    have h1 := hasLicense_fst upper c t (filepathJoin path name) acc
    have ih := rangeDirs_append upper c path rest pre
      (hasLicense upper c (filepathJoin path name) t acc).2 (seen ++ [name]) hp
    simp [rangeDirs, h1, ht, ih]

theorem rangeDirs_cons_fail (upper : String → String) (c : Classifier) (path name : String) (t : DirTree)
    (post : List (String × DirTree)) (acc seen : List String) (h : licensed upper c t = false) :
    rangeDirs upper c path ((name, t) :: post) acc seen =
      ⟨false, (hasLicense upper c (filepathJoin path name) t acc).2, seen ++ [name]⟩ := by
  have h1 := hasLicense_fst upper c t (filepathJoin path name) acc
  simp [rangeDirs, h1, h]

/-! ## Lemmas on maps -/

theorem mapGet_mapSet (k v k' : String) :
    ∀ m : List (String × String),
      mapGet (mapSet m k v) k' = if k = k' then some v else mapGet m k'
  | [] => by simp [mapSet, mapGet]
  | (a, b) :: rest => by
    have ih := mapGet_mapSet k v k' rest
    by_cases h : a = k
    · by_cases h' : k = k'
      · simp [mapSet, mapGet, h, h']
      · simp [mapSet, mapGet, h, h']
    · by_cases h' : a = k'
      · have hk : k ≠ k' := fun e => h (h'.trans e.symm)
        subst h'
        simp [mapSet, mapGet, h, hk]
      · simp [mapSet, mapGet, h, h', ih]

theorem keys_mapSet (k v : String) :
    ∀ m : List (String × String),
      (mapSet m k v).map Prod.fst =
        if k ∈ m.map Prod.fst then m.map Prod.fst else m.map Prod.fst ++ [k]
  | [] => by simp [mapSet]
  | (a, b) :: rest => by
    have ih := keys_mapSet k v rest
    by_cases h : a = k
    · simp [mapSet, h]
    · have h' : k ≠ a := fun e => h e.symm
      by_cases hm : k ∈ rest.map Prod.fst
      · rw [if_pos hm] at ih
        have hm' : k ∈ ((a, b) :: rest).map Prod.fst := by
          simp only [List.map_cons, List.mem_cons]
          exact Or.inr hm
        rw [if_pos hm']
        simp [mapSet, h, ih]
      · rw [if_neg hm] at ih
        have hm' : k ∉ ((a, b) :: rest).map Prod.fst := by
          simp only [List.map_cons, List.mem_cons, not_or]
          exact ⟨h', hm⟩
        rw [if_neg hm']
        simp [mapSet, h, ih]

theorem keys_mapSet_nodup (k v : String) (m : List (String × String))
    (h : (m.map Prod.fst).Nodup) : ((mapSet m k v).map Prod.fst).Nodup := by
  rw [keys_mapSet]
  by_cases hm : k ∈ m.map Prod.fst
  · rw [if_pos hm]; exact h
  · rw [if_neg hm]
    exact List.Nodup.append h (List.nodup_singleton k) (by simpa using hm)

theorem licenceMap_snoc (rs : List LicenseType) (r : LicenseType) :
    licenceMap (rs ++ [r]) = mapSet (licenceMap rs) r.Filename r.Name := by
  simp [licenceMap, List.foldl_append]

theorem lastName_snoc (rs : List LicenseType) (r : LicenseType) (f : String) :
    lastName (rs ++ [r]) f = if r.Filename = f then some r.Name else lastName rs f := by
  by_cases h : r.Filename = f
  · simp [lastName, List.filter_append, h]
  · simp [lastName, List.filter_append, h]

theorem mapGet_licenceMap (f : String) (results : List LicenseType) :
    mapGet (licenceMap results) f = lastName results f := by
  induction results using List.reverseRecOn with
  | nil => simp [licenceMap, mapGet, lastName]
  | append_singleton rs r ih => rw [licenceMap_snoc, mapGet_mapSet, lastName_snoc, ih]

theorem licenceMap_nodup (results : List LicenseType) :
    ((licenceMap results).map Prod.fst).Nodup := by
  induction results using List.reverseRecOn with
  | nil => simp [licenceMap]
  | append_singleton rs r ih =>
    rw [licenceMap_snoc]
    exact keys_mapSet_nodup _ _ _ ih

/-! ## Lemmas on the backend -/

theorem classifyLicense_err (w : World) (filename : String) (b : Backend) :
    (classifyLicense w b filename).2 = readError w filename := by
  unfold classifyLicense readError
  cases w.readFile filename with
  | error cause => rfl
  | ok contents =>
    cases w.classifyLanguage filename <;> rfl

theorem classifyLicense_unreadable (w : World) (filename : String) (b : Backend)
    (h : readable w filename = false) : (classifyLicense w b filename).1 = b := by
  unfold classifyLicense
  unfold readable readError at h
  cases hr : w.readFile filename with
  | error cause => rfl
  | ok contents => simp [hr] at h

theorem ClassifyLicenses_errors (w : World) :
    ∀ (files : List String) (b : Backend),
      (ClassifyLicenses w b files).2 = files.filterMap (readError w)
  | [], _ => rfl
  | f :: rest, b => by
    have ih := ClassifyLicenses_errors w rest (classifyLicense w b f).1
    have he := classifyLicense_err w f b
    cases hr : readError w f with
    | none =>
      rw [hr] at he
      simp [ClassifyLicenses, he, ih, List.filterMap_cons, hr]
    | some e =>
      rw [hr] at he
      simp [ClassifyLicenses, he, ih, List.filterMap_cons, hr]

theorem ClassifyLicenses_backend_snd (w : World) (f : String) (rest : List String)
    (b : Backend) :
    (ClassifyLicenses w b (f :: rest)).1 =
      (ClassifyLicenses w (classifyLicense w b f).1 rest).1 := by
  cases hr : (classifyLicense w b f).2 <;> simp [ClassifyLicenses, hr]

theorem ClassifyLicenses_readable_only (w : World) :
    ∀ (files : List String) (b : Backend),
      (ClassifyLicenses w b files).1 =
        (ClassifyLicenses w b (files.filter (readable w))).1
  | [], _ => rfl
  | f :: rest, b => by
    have ih := ClassifyLicenses_readable_only w rest (classifyLicense w b f).1
    cases hr : readable w f with
    | true =>
      rw [List.filter_cons_of_pos (by simpa using hr), ClassifyLicenses_backend_snd,
        ClassifyLicenses_backend_snd, ih]
    | false =>
      rw [List.filter_cons_of_neg (by simp [hr]), ClassifyLicenses_backend_snd, ih,
        classifyLicense_unreadable w f b hr]

theorem classify_eq (w : World) (files : List String) (hnew : w.newBackendErr = none) :
    classify w files =
      match (ClassifyLicensesWithContext w ⟨[]⟩ files).2 with
      | err :: _ => .error err
      | [] =>
        if (ClassifyLicensesWithContext w ⟨[]⟩ files).1.GetResults.length = 0 then
          .error (.errorsNew "couldn't classify license(s)")
        else .ok (licenceMap (ClassifyLicensesWithContext w ⟨[]⟩ files).1.GetResults) := by
  simp only [classify, NewBackend, hnew]

theorem withContext_eq (w : World) (b : Backend) (files : List String)
    (hctx : w.ctxDone = none) :
    ClassifyLicensesWithContext w b files = ClassifyLicenses w b files := by
  simp only [ClassifyLicensesWithContext, hctx]

theorem Process_licenseFiles (c : Classifier) (w : World) (vendorPath outputPath : String)
    (root : DirTree) :
    (c.Process w vendorPath outputPath root).licenseFiles =
      (vendorScan w.toUpper c vendorPath root).licenseFiles := by
  simp only [Classifier.Process, vendorScan]
  split
  · rfl
  · split
    · rfl
    · split <;> rfl

theorem Process_err_of_classify (c : Classifier) (w : World) (vendorPath outputPath : String)
    (root : DirTree) (err : GoError)
    (h : classify w (c.Process w vendorPath outputPath root).licenseFiles = .error err) :
    (c.Process w vendorPath outputPath root).err = some err := by
  rw [Process_licenseFiles, vendorScan] at h
  simp only [Classifier.Process, h]

theorem Process_output_of_error (c : Classifier) (w : World) (vendorPath outputPath : String)
    (root : DirTree) (err : GoError)
    (h : classify w (vendorScan w.toUpper c vendorPath root).licenseFiles = .error err) :
    (c.Process w vendorPath outputPath root).output = (vendorScan w.toUpper c vendorPath root).output := by
  rw [vendorScan] at h
  simp only [Classifier.Process, h, vendorScan]

theorem Process_output_of_ok (c : Classifier) (w : World) (vendorPath outputPath : String)
    (root : DirTree) (licences : List (String × String))
    (h : classify w (vendorScan w.toUpper c vendorPath root).licenseFiles = .ok licences) :
    (c.Process w vendorPath outputPath root).output =
      bucketLicences vendorPath (w.rangeLicences licences)
        (vendorScan w.toUpper c vendorPath root).output := by
  rw [vendorScan] at h
  simp only [Classifier.Process, h, vendorScan]
  split
  · rfl
  · split <;> rfl

theorem Process_check_of_ok (c : Classifier) (w : World) (vendorPath outputPath : String)
    (root : DirTree) (licences : List (String × String))
    (h : classify w (c.Process w vendorPath outputPath root).licenseFiles = .ok licences)
    (hw : outputPath = "" ∨
      w.writeFile outputPath (c.Process w vendorPath outputPath root).output = none) :
    ((c.Process w vendorPath outputPath root).err,
      (c.Process w vendorPath outputPath root).flagged) =
      if (c.allowedLicenses w).length > 0 then
        checkAllowed (c.allowedLicenses w)
          (w.rangeOutput (c.Process w vendorPath outputPath root).output) (none, [])
      else (none, []) := by
  rw [Process_licenseFiles] at h
  have ho := Process_output_of_ok c w vendorPath outputPath root licences h
  rw [ho] at hw ⊢
  have hw' : (if outputPath ≠ "" then w.writeFile outputPath
      (bucketLicences vendorPath (w.rangeLicences licences)
        (vendorScan w.toUpper c vendorPath root).output) else none) = none := by
    rcases hw with hw | hw
    · simp [hw]
    · simp [hw]
  rw [vendorScan] at h hw'
  simp only [Classifier.Process, h, hw', vendorScan]
  split <;> rfl

/-! ## The resolver: recursion and short circuit -/

theorem hasLicense_stored_iff (upper : String → String) (c : Classifier) (path : String)
    (files : List String) (subdirs : List (String × DirTree)) (acc : List String)
    (hnames : ∀ f ∈ files, upper f ≠ "") :
    (hasLicense upper c path (.node files subdirs) acc).1 = true ↔
      ((∃ f ∈ files, upper f ∈ c.fileNames) ∨
        (subdirs ≠ [] ∧ ∀ d ∈ subdirs, ∀ acc' : List String,
          (hasLicense upper c (filepathJoin path d.1) d.2 acc').1 = true)) := by
  have hempty : "" ∉ files.map upper := by
    intro hm
    obtain ⟨f, hf, he⟩ := List.mem_map.1 hm
    exact hnames f hf he
  have hmatch : c.isLicensed (files.map upper) ≠ "" ↔ ∃ f ∈ files, upper f ∈ c.fileNames := by
    constructor
    · intro h
      have hm := isLicensedIn_mem (files.map upper) c.fileNames h
      obtain ⟨f, hf, he⟩ := List.mem_map.1 hm.2
      exact ⟨f, hf, by rw [he]; exact hm.1⟩
    · rintro ⟨f, hf, hc⟩
      exact isLicensedIn_ne_empty _ hempty c.fileNames
        ⟨upper f, hc, List.mem_map.2 ⟨f, hf, rfl⟩⟩
  have hsub : allLicensed upper c subdirs = true ↔ ∀ d ∈ subdirs, ∀ acc' : List String,
      (hasLicense upper c (filepathJoin path d.1) d.2 acc').1 = true := by
    rw [allLicensed_iff]
    constructor
    · intro h d hd acc'
      rw [hasLicense_fst]
      exact h d hd
    · intro h d hd
      have := h d hd []
      rwa [hasLicense_fst] at this
  rw [hasLicense_fst, ← hmatch, ← hsub]
  by_cases h : c.isLicensed (files.map upper) = ""
  · simp [licensed, h, List.length_pos, and_comm]
  · simp [licensed, h]

/-- Claim C1, at the failing input and where it holds.  With `-files License.md` the
directory `vendor/h/r` holds the file `LICENSE.MD`, whose name equals the configured
one up to case, and a subdirectory `docs`; `hasLicense` returns false and accumulates
nothing, although the directory has a direct match.  Whenever every configured name is
already in upper case, and for any `strings.ToUpper` that maps no file name of the
directory to the empty string, `hasLicense` returns true exactly when an immediate file
equals a configured name up to case, or there is a subdirectory and `hasLicense`
returns true for every subdirectory; a direct match then gives true whatever the
subdirectories are, and no match with no subdirectory gives false. -/
theorem hasLicense_match_ignoring_case :
    ((classifierOfFlags ".license" "License.md").fileNames = ["License.md"] ∧
      (∃ f ∈ ["LICENSE.MD", "go.mod"],
        ∃ n ∈ (classifierOfFlags ".license" "License.md").fileNames,
          asciiUpper f = asciiUpper n) ∧
      hasLicense asciiUpper (classifierOfFlags ".license" "License.md") "vendor/h/r"
        (.node ["LICENSE.MD", "go.mod"] [("docs", .node [] [])]) [] = (false, [])) ∧
    ∀ (upper : String → String) (c : Classifier) (path : String) (files : List String)
      (subdirs : List (String × DirTree)) (acc : List String),
      (∀ n ∈ c.fileNames, upper n = n) →
      (∀ f ∈ files, upper f ≠ "") →
      ((hasLicense upper c path (.node files subdirs) acc).1 = true ↔
        ((∃ f ∈ files, ∃ n ∈ c.fileNames, upper f = upper n) ∨
          (subdirs ≠ [] ∧ ∀ d ∈ subdirs, ∀ acc' : List String,
            (hasLicense upper c (filepathJoin path d.1) d.2 acc').1 = true))) ∧
      ((∃ f ∈ files, ∃ n ∈ c.fileNames, upper f = upper n) →
        (hasLicense upper c path (.node files subdirs) acc).1 = true) ∧
      ((¬ ∃ f ∈ files, ∃ n ∈ c.fileNames, upper f = upper n) →
        (hasLicense upper c path (.node files []) acc).1 = false) := by
  refine ⟨by decide, ?_⟩
  intro upper c path files subdirs acc hcfg hnames
  have hm : (∃ f ∈ files, ∃ n ∈ c.fileNames, upper f = upper n) ↔
      ∃ f ∈ files, upper f ∈ c.fileNames := by
    constructor
    · rintro ⟨f, hf, n, hn, he⟩
      exact ⟨f, hf, by rw [he, hcfg n hn]; exact hn⟩
    · rintro ⟨f, hf, hn⟩
      exact ⟨f, hf, upper f, hn, (hcfg _ hn).symm⟩
  have hiff : ∀ l : List (String × DirTree),
      ((hasLicense upper c path (.node files l) acc).1 = true ↔
        ((∃ f ∈ files, ∃ n ∈ c.fileNames, upper f = upper n) ∨
          (l ≠ [] ∧ ∀ d ∈ l, ∀ acc' : List String,
            (hasLicense upper c (filepathJoin path d.1) d.2 acc').1 = true))) := by
    intro l
    rw [hm]
    exact hasLicense_stored_iff upper c path files l acc hnames
  refine ⟨hiff subdirs, fun h => (hiff subdirs).2 (Or.inl h), fun h => ?_⟩
  have := hiff []
  cases hb : (hasLicense upper c path (.node files []) acc).1
  · rfl
  · rw [hb] at this
    simp [h] at this

/-- Witness for `hasLicense_match_ignoring_case`: a repository with a `README` and a
directory `src` holding `license`, under the default file names. -/
theorem hasLicense_match_ignoring_case_witness :
    ((hasLicense asciiUpper (classifierOfFlags ".license" defaultFiles) "vendor/h/r"
        (.node ["README"] [("src", .node ["license"] [])]) []).1 = true ↔
      ((∃ f ∈ ["README"], ∃ n ∈ (classifierOfFlags ".license" defaultFiles).fileNames,
          asciiUpper f = asciiUpper n) ∨
        ([("src", DirTree.node ["license"] [])] ≠ [] ∧
          ∀ d ∈ [("src", DirTree.node ["license"] [])], ∀ acc' : List String,
          (hasLicense asciiUpper (classifierOfFlags ".license" defaultFiles)
            (filepathJoin "vendor/h/r" d.1) d.2 acc').1 = true))) ∧
    ((∃ f ∈ ["README"], ∃ n ∈ (classifierOfFlags ".license" defaultFiles).fileNames,
        asciiUpper f = asciiUpper n) →
      (hasLicense asciiUpper (classifierOfFlags ".license" defaultFiles) "vendor/h/r"
        (.node ["README"] [("src", .node ["license"] [])]) []).1 = true) ∧
    ((¬ ∃ f ∈ ["README"], ∃ n ∈ (classifierOfFlags ".license" defaultFiles).fileNames,
        asciiUpper f = asciiUpper n) →
      (hasLicense asciiUpper (classifierOfFlags ".license" defaultFiles) "vendor/h/r"
        (.node ["README"] []) []).1 = false) :=
  hasLicense_match_ignoring_case.2 asciiUpper (classifierOfFlags ".license" defaultFiles)
    "vendor/h/r" ["README"] [("src", .node ["license"] [])] [] (by decide) (by decide)

/-- Claim C4.  In a directory without a direct match whose subdirectories are visited
in the order `pre`, then `name`, then `post`, where every subdirectory of `pre`
resolves and `name` does not: `hasLicense` returns false, the subdirectories visited
are exactly those of `pre` followed by `name`, so their number is the 1-based index of
`name`, and the accumulator is the one obtained when the later siblings `post` do not
exist at all. -/
theorem hasLicense_short_circuit (upper : String → String) (c : Classifier)
    (path : String) (files : List String)
    (pre post : List (String × DirTree)) (name : String) (t : DirTree) (acc : List String)
    (hno : ∀ f ∈ files, upper f ∉ c.fileNames)
    (hpre : ∀ d ∈ pre, found upper c (filepathJoin path d.1) d.2 = true)
    (hfail : found upper c (filepathJoin path name) t = false) :
    hasLicense upper c path (.node files (pre ++ (name, t) :: post)) acc =
      (false, (rangeDirs upper c path (pre ++ (name, t) :: post) acc []).licenceFiles) ∧
    (rangeDirs upper c path (pre ++ (name, t) :: post) acc []).completed = false ∧
    (rangeDirs upper c path (pre ++ (name, t) :: post) acc []).visited =
      pre.map Prod.fst ++ [name] ∧
    (rangeDirs upper c path (pre ++ (name, t) :: post) acc []).visited.length = pre.length + 1 ∧
    (rangeDirs upper c path (pre ++ (name, t) :: post) acc []).licenceFiles =
      (rangeDirs upper c path (pre ++ [(name, t)]) acc []).licenceFiles := by
  have hdirect : c.isLicensed (files.map upper) = "" := by
    apply isLicensedIn_eq_empty
    intro n hn hm
    obtain ⟨f, hf, he⟩ := List.mem_map.1 hm
    exact hno f hf (he ▸ hn)
  have hall : allLicensed upper c pre = true := by
    rw [allLicensed_iff]
    intro d hd
    rw [← found_eq_licensed upper c (filepathJoin path d.1)]
    exact hpre d hd
  have ht : licensed upper c t = false := by
    rw [← found_eq_licensed upper c (filepathJoin path name)]
    exact hfail
  have hrun : ∀ rest : List (String × DirTree),
      rangeDirs upper c path (pre ++ (name, t) :: rest) acc [] =
        ⟨false, (hasLicense upper c (filepathJoin path name) t
            (rangeDirs upper c path pre acc []).licenceFiles).2, pre.map Prod.fst ++ [name]⟩ := by
    intro rest
    rw [rangeDirs_append upper c path _ pre acc [] hall, rangeDirs_cons_fail upper c path name t rest _ _ ht]
    simp
  have h1 := hrun post
  have h2 := hrun []
  refine ⟨?_, ?_, ?_, ?_, ?_⟩
  · simp [hasLicense, mustDir, DirTree.files, DirTree.dirs, hdirect, h1]
  · rw [h1]
  · rw [h1]
  · rw [h1]; simp
  · rw [h1, h2]

/-- Witness for `hasLicense_short_circuit`: `a` holds a license, `b` is empty and `z`,
which holds a license, comes after `b`. -/
theorem hasLicense_short_circuit_witness :
    hasLicense asciiUpper ⟨".license", ["LICENSE"]⟩ "vendor/h/r"
        (.node ["README"] ([("a", .node ["LICENSE"] [])] ++
          ("b", .node [] []) :: [("z", .node ["LICENSE"] [])])) [] =
      (false, (rangeDirs asciiUpper ⟨".license", ["LICENSE"]⟩ "vendor/h/r"
        ([("a", .node ["LICENSE"] [])] ++
          ("b", .node [] []) :: [("z", .node ["LICENSE"] [])]) [] []).licenceFiles) ∧
    (rangeDirs asciiUpper ⟨".license", ["LICENSE"]⟩ "vendor/h/r"
        ([("a", .node ["LICENSE"] [])] ++
          ("b", .node [] []) :: [("z", .node ["LICENSE"] [])]) [] []).completed = false ∧
    (rangeDirs asciiUpper ⟨".license", ["LICENSE"]⟩ "vendor/h/r"
        ([("a", .node ["LICENSE"] [])] ++
          ("b", .node [] []) :: [("z", .node ["LICENSE"] [])]) [] []).visited =
      [("a", DirTree.node ["LICENSE"] [])].map Prod.fst ++ ["b"] ∧
    (rangeDirs asciiUpper ⟨".license", ["LICENSE"]⟩ "vendor/h/r"
        ([("a", .node ["LICENSE"] [])] ++
          ("b", .node [] []) :: [("z", .node ["LICENSE"] [])]) [] []).visited.length =
      [("a", DirTree.node ["LICENSE"] [])].length + 1 ∧
    (rangeDirs asciiUpper ⟨".license", ["LICENSE"]⟩ "vendor/h/r"
        ([("a", .node ["LICENSE"] [])] ++
          ("b", .node [] []) :: [("z", .node ["LICENSE"] [])]) [] []).licenceFiles =
      (rangeDirs asciiUpper ⟨".license", ["LICENSE"]⟩ "vendor/h/r"
        ([("a", .node ["LICENSE"] [])] ++ [("b", .node [] [])]) [] []).licenceFiles :=
  hasLicense_short_circuit asciiUpper ⟨".license", ["LICENSE"]⟩ "vendor/h/r" ["README"]
    [("a", .node ["LICENSE"] [])] [("z", .node ["LICENSE"] [])] "b" (.node [] []) []
    (by decide) (by decide) (by decide)

/-! ## The resolver: file names -/

/-- Claim C2, evaluated at the failing input.  With `-files license` the configured
list is `["license"]`; a directory whose only file is `LICENSE`, a name equal to the
configured one up to case, is stored as `LICENSE` by `mustDir`, `isLicensed` finds no
key `license`, and the directory resolves as not found with nothing accumulated. -/
theorem hasLicense_lowercase_configured_name :
    (classifierOfFlags ".license" "license").fileNames = ["license"] ∧
    asciiUpper "LICENSE" = asciiUpper "license" ∧
    (mustDir asciiUpper "vendor/h/r" (.node ["LICENSE"] [])).files = ["LICENSE"] ∧
    (classifierOfFlags ".license" "license").isLicensed
      (mustDir asciiUpper "vendor/h/r" (.node ["LICENSE"] [])).files = "" ∧
    hasLicense asciiUpper (classifierOfFlags ".license" "license") "vendor/h/r"
      (.node ["LICENSE"] []) [] = (false, []) := by
  decide

/-- Claim C3, evaluated at the failing input.  Under the default file names a directory
holding `License.txt` resolves as found with one path appended and the subdirectory
not visited, but the path is the directory joined with the configured name
`LICENSE.TXT`, not with the name on disk; where the file can only be read under its
name on disk, `Process` fails on reading the recorded path. -/
theorem hasLicense_records_configured_name :
    hasLicense asciiUpper (classifierOfFlags ".license" defaultFiles) "vendor/h/r"
      (.node ["License.txt", "README"] [("sub", .node [] [])]) [] =
      (true, ["vendor/h/r/LICENSE.TXT"]) ∧
    filepathJoin "vendor/h/r" "License.txt" = "vendor/h/r/License.txt" ∧
    ((classifierOfFlags ".license" defaultFiles).Process mixedCaseWorld "vendor/" ""
      mixedCase).licenseFiles = ["vendor/h/r/LICENSE.TXT"] ∧
    ((classifierOfFlags ".license" defaultFiles).Process mixedCaseWorld "vendor/" ""
      mixedCase).err =
      some (.unableToRead "vendor/h/r/LICENSE.TXT" "open: no such file or directory") := by
  decide

/-! ## The driver: what the report holds -/

/-- Claim C5, evaluated at the failing input.  The repository `h/r` has no license file
of its own, its subdirectory `a` holds `LICENSE` and its subdirectory `b` is empty;
visited in this order the repository resolves as not found, yet the path found in `a`
stays in the batch handed to the classifier, and the report lists the repository
under `Unknown` and its file under `MIT`.  Visited in the other order the batch is
empty. -/
theorem Process_unlicensed_repo_leaks_candidate :
    found asciiUpper (classifierOfFlags ".license" defaultFiles) "vendor/h/r"
      (.node ["main.go"] [("a", .node ["LICENSE"] []), ("b", .node [] [])]) = false ∧
    ((classifierOfFlags ".license" defaultFiles).Process halfLicensedWorld "vendor/" ""
      halfLicensed).licenseFiles = ["vendor/h/r/a/LICENSE"] ∧
    ((classifierOfFlags ".license" defaultFiles).Process halfLicensedWorld "vendor/" ""
      halfLicensed).output = [("Unknown", ["h/r"]), ("MIT", ["h/r/a/LICENSE"])] ∧
    ((classifierOfFlags ".license" defaultFiles).Process halfLicensedWorld "vendor/" ""
      halfLicensed).err = none ∧
    ((classifierOfFlags ".license" defaultFiles).Process halfLicensedWorld "vendor/" ""
      halfLicensedRev).licenseFiles = [] ∧
    ((classifierOfFlags ".license" defaultFiles).Process halfLicensedWorld "vendor/" ""
      halfLicensedRev).output = [("Unknown", ["h/r"])] := by
  decide

/-- Claim C6, evaluated at the failing input.  In the end-to-end scenario with the vendor
directory given as `vendor/`, the `Unknown` bucket holds the repository path
`hostB/repoB`, but the `MIT` bucket holds the path of the license file,
`hostA/repoA/LICENSE`, and not the repository path `hostA/repoA`.  With the default
`./vendor/` the entries are not relative to the vendor directory either:
`filepath.Join` has cleaned the leading `./` away, so `strings.TrimPrefix` removes
nothing. -/
theorem Process_two_hosts_report :
    ((classifierOfFlags ".license" defaultFiles).Process twoHostsWorld "vendor/" ""
      twoHosts).err = none ∧
    mapGet ((classifierOfFlags ".license" defaultFiles).Process twoHostsWorld "vendor/" ""
      twoHosts).output "Unknown" = some ["hostB/repoB"] ∧
    mapGet ((classifierOfFlags ".license" defaultFiles).Process twoHostsWorld "vendor/" ""
      twoHosts).output "MIT" = some ["hostA/repoA/LICENSE"] ∧
    mapGet ((classifierOfFlags ".license" defaultFiles).Process twoHostsWorld "vendor/" ""
      twoHosts).output "MIT" ≠ some ["hostA/repoA"] ∧
    ((classifierOfFlags ".license" defaultFiles).Process twoHostsWorld "./vendor/" ""
      twoHosts).licenseFiles = ["vendor/hostA/repoA/LICENSE"] ∧
    ((classifierOfFlags ".license" defaultFiles).Process twoHostsWorld "./vendor/" ""
      twoHosts).output =
      [("Unknown", ["vendor/hostB/repoB"]), ("MIT", ["vendor/hostA/repoA/LICENSE"])] := by
  decide

/-- Claim C7 fails as stated: in a batch of two candidate files of which the first cannot
be read and the second yields an MIT match, the backend reports the one read error
and records the match, but `classify` returns that error and no map, and `Process`
returns it too. -/
theorem classify_read_failure_counterexample :
    (ClassifyLicenses twoReposWorld ⟨[]⟩ ["vendor/h/a/LICENSE", "vendor/h/b/LICENSE"]).2 =
      [.unableToRead "vendor/h/a/LICENSE" "open: no such file or directory"] ∧
    (ClassifyLicenses twoReposWorld ⟨[]⟩
      ["vendor/h/a/LICENSE", "vendor/h/b/LICENSE"]).1.GetResults.map
        (fun r => (r.Filename, r.Name)) = [("vendor/h/b/LICENSE", "MIT")] ∧
    (∀ m, classify twoReposWorld ["vendor/h/a/LICENSE", "vendor/h/b/LICENSE"] ≠ .ok m) ∧
    ((classifierOfFlags ".license" defaultFiles).Process twoReposWorld "vendor/" ""
      twoRepos).licenseFiles = ["vendor/h/a/LICENSE", "vendor/h/b/LICENSE"] ∧
    ((classifierOfFlags ".license" defaultFiles).Process twoReposWorld "vendor/" ""
      twoRepos).err =
      some (.unableToRead "vendor/h/a/LICENSE" "open: no such file or directory") := by
  refine ⟨by decide, by decide, ?_, by decide, by decide⟩
  intro m h
  have h2 : classify twoReposWorld ["vendor/h/a/LICENSE", "vendor/h/b/LICENSE"] =
      .error (.unableToRead "vendor/h/a/LICENSE" "open: no such file or directory") := by
    rfl
  rw [h2] at h
  cases h

/-! ## Classification: read failures and the file-to-license map -/

theorem mem_keys_iff_mapGet (k : String) :
    ∀ m : List (String × String), k ∈ m.map Prod.fst ↔ mapGet m k ≠ none
  | [] => by simp [mapGet]
  | (a, b) :: rest => by
    have ih := mem_keys_iff_mapGet k rest
    by_cases h : a = k
    · simp [mapGet, h]
    · have h' : k ≠ a := fun e => h e.symm
      simp [mapGet, h, h', ih]

theorem lastName_ne_none_iff (results : List LicenseType) (f : String) :
    lastName results f ≠ none ↔ ∃ r ∈ results, r.Filename = f := by
  unfold lastName
  rw [ne_eq, Option.map_eq_none', List.getLast?_eq_none_iff, ← ne_eq]
  constructor
  · intro h
    obtain ⟨r, l, h'⟩ := List.exists_cons_of_ne_nil h
    have hm : r ∈ results.filter (fun r => r.Filename = f) := by rw [h']; simp
    rw [List.mem_filter] at hm
    exact ⟨r, hm.1, by simpa using hm.2⟩
  · rintro ⟨r, hr, hf⟩
    have hm : r ∈ results.filter (fun r => r.Filename = f) := by
      rw [List.mem_filter]
      exact ⟨hr, by simpa using hf⟩
    exact List.ne_nil_of_mem hm

/-- Claim C7, amended.  When the backend starts, the deadline does not fire and some
file of the batch cannot be read: the backend reports exactly the read errors of the
unreadable files, one each, and its result collection is the one it builds from the
readable files alone; `classify` returns one of these errors instead of a map, and a
run of `Process` whose batch this is returns that error. -/
theorem classify_read_failure (w : World) (files : List String) (bad : String)
    (hnew : w.newBackendErr = none) (hctx : w.ctxDone = none)
    (hbad : bad ∈ files) (hunread : readable w bad = false) :
    (ClassifyLicenses w ⟨[]⟩ files).2 = files.filterMap (readError w) ∧
    (ClassifyLicenses w ⟨[]⟩ files).2.length =
      (files.filter (fun f => !readable w f)).length ∧
    (ClassifyLicenses w ⟨[]⟩ files).1 =
      (ClassifyLicenses w ⟨[]⟩ (files.filter (readable w))).1 ∧
    ∃ err ∈ (ClassifyLicenses w ⟨[]⟩ files).2,
      classify w files = .error err ∧
      ∀ (c : Classifier) (vendorPath outputPath : String) (root : DirTree),
        (c.Process w vendorPath outputPath root).licenseFiles = files →
        (c.Process w vendorPath outputPath root).err = some err := by
  have hlen : ∀ l : List String,
      (l.filterMap (readError w)).length = (l.filter (fun f => !readable w f)).length := by
    intro l
    induction l with
    | nil => rfl
    | cons f rest ih =>
      cases hr : readError w f with
      | none => simp [List.filterMap_cons, List.filter_cons, readable, hr, ih]
      | some e => simp [List.filterMap_cons, List.filter_cons, readable, hr, ih]
  have hne : files.filterMap (readError w) ≠ [] := by
    intro h
    rw [List.filterMap_eq_nil_iff] at h
    have := h bad hbad
    simp [readable, this] at hunread
  refine ⟨ClassifyLicenses_errors w files _, ?_, ClassifyLicenses_readable_only w files _, ?_⟩
  · rw [ClassifyLicenses_errors]
    exact hlen files
  · obtain ⟨err, rest, he⟩ := List.exists_cons_of_ne_nil hne
    have hc : classify w files = .error err := by
      rw [classify_eq w files hnew, withContext_eq w _ files hctx, ClassifyLicenses_errors, he]
    refine ⟨err, ?_, hc, ?_⟩
    · rw [ClassifyLicenses_errors, he]
      exact List.mem_cons_self _ _
    · intro c vendorPath outputPath root hb
      apply Process_err_of_classify
      rw [hb]
      exact hc

/-- Witness for `classify_read_failure`: the batch of `twoRepos`, whose first file
cannot be read. -/
theorem classify_read_failure_witness :
    (ClassifyLicenses twoReposWorld ⟨[]⟩ ["vendor/h/a/LICENSE", "vendor/h/b/LICENSE"]).2 =
      ["vendor/h/a/LICENSE", "vendor/h/b/LICENSE"].filterMap (readError twoReposWorld) ∧
    (ClassifyLicenses twoReposWorld ⟨[]⟩
        ["vendor/h/a/LICENSE", "vendor/h/b/LICENSE"]).2.length =
      (["vendor/h/a/LICENSE", "vendor/h/b/LICENSE"].filter
        (fun f => !readable twoReposWorld f)).length ∧
    (ClassifyLicenses twoReposWorld ⟨[]⟩ ["vendor/h/a/LICENSE", "vendor/h/b/LICENSE"]).1 =
      (ClassifyLicenses twoReposWorld ⟨[]⟩
        (["vendor/h/a/LICENSE", "vendor/h/b/LICENSE"].filter (readable twoReposWorld))).1 ∧
    ∃ err ∈ (ClassifyLicenses twoReposWorld ⟨[]⟩
        ["vendor/h/a/LICENSE", "vendor/h/b/LICENSE"]).2,
      classify twoReposWorld ["vendor/h/a/LICENSE", "vendor/h/b/LICENSE"] = .error err ∧
      ∀ (c : Classifier) (vendorPath outputPath : String) (root : DirTree),
        (c.Process twoReposWorld vendorPath outputPath root).licenseFiles =
          ["vendor/h/a/LICENSE", "vendor/h/b/LICENSE"] →
        (c.Process twoReposWorld vendorPath outputPath root).err = some err :=
  classify_read_failure twoReposWorld ["vendor/h/a/LICENSE", "vendor/h/b/LICENSE"]
    "vendor/h/a/LICENSE" rfl rfl (by decide) (by decide)

/-- Claim C8.  When the backend starts and reports no error for the batch, so that no
file failed to read: an empty batch leaves the result collection empty; if the
collection is empty `classify` fails with "couldn't classify license(s)" and a run of
`Process` with this batch returns that error; otherwise `classify` returns a map with
one entry per key, whose keys are exactly the files with at least one match and which
maps each file to the license name of its last match in the collection. -/
theorem classify_of_results (w : World) (files : List String)
    (hnew : w.newBackendErr = none)
    (herrs : (ClassifyLicensesWithContext w ⟨[]⟩ files).2 = []) :
    (files = [] → (ClassifyLicensesWithContext w ⟨[]⟩ files).1.GetResults = []) ∧
    ((ClassifyLicensesWithContext w ⟨[]⟩ files).1.GetResults = [] →
      classify w files = .error (.errorsNew "couldn't classify license(s)") ∧
      ∀ (c : Classifier) (vendorPath outputPath : String) (root : DirTree),
        (c.Process w vendorPath outputPath root).licenseFiles = files →
        (c.Process w vendorPath outputPath root).err =
          some (.errorsNew "couldn't classify license(s)")) ∧
    ((ClassifyLicensesWithContext w ⟨[]⟩ files).1.GetResults ≠ [] →
      ∃ m, classify w files = .ok m ∧
        (m.map Prod.fst).Nodup ∧
        (∀ f, f ∈ m.map Prod.fst ↔
          ∃ r ∈ (ClassifyLicensesWithContext w ⟨[]⟩ files).1.GetResults, r.Filename = f) ∧
        ∀ f, mapGet m f =
          lastName (ClassifyLicensesWithContext w ⟨[]⟩ files).1.GetResults f) := by
  have hc := classify_eq w files hnew
  rw [herrs] at hc
  simp only at hc
  have hctx : w.ctxDone = none := by
    cases h : w.ctxDone with
    | none => rfl
    | some err => simp [ClassifyLicensesWithContext, h] at herrs
  refine ⟨?_, ?_, ?_⟩
  · intro h
    subst h
    rw [withContext_eq w _ _ hctx]
    rfl
  · intro h
    have hc' : classify w files = .error (.errorsNew "couldn't classify license(s)") := by
      rw [hc, h]
      rfl
    refine ⟨hc', ?_⟩
    intro c vendorPath outputPath root hb
    apply Process_err_of_classify
    rw [hb]
    exact hc'
  · intro h
    have hlen : (ClassifyLicensesWithContext w ⟨[]⟩ files).1.GetResults.length ≠ 0 := by
      intro h0
      exact h (List.length_eq_zero.1 h0)
    refine ⟨licenceMap (ClassifyLicensesWithContext w ⟨[]⟩ files).1.GetResults, ?_, ?_, ?_, ?_⟩
    · rw [hc, if_neg hlen]
    · exact licenceMap_nodup _
    · intro f
      rw [mem_keys_iff_mapGet, mapGet_licenceMap, lastName_ne_none_iff]
    · intro f
      exact mapGet_licenceMap f _

/-- Witness for `classify_of_results`: a batch of one file with an MIT match followed
by an Apache-2.0 match. -/
theorem classify_of_results_witness :
    (["vendor/h/r/LICENSE"] = [] →
      (ClassifyLicensesWithContext dualWorld ⟨[]⟩ ["vendor/h/r/LICENSE"]).1.GetResults = []) ∧
    ((ClassifyLicensesWithContext dualWorld ⟨[]⟩ ["vendor/h/r/LICENSE"]).1.GetResults = [] →
      classify dualWorld ["vendor/h/r/LICENSE"] =
        .error (.errorsNew "couldn't classify license(s)") ∧
      ∀ (c : Classifier) (vendorPath outputPath : String) (root : DirTree),
        (c.Process dualWorld vendorPath outputPath root).licenseFiles =
          ["vendor/h/r/LICENSE"] →
        (c.Process dualWorld vendorPath outputPath root).err =
          some (.errorsNew "couldn't classify license(s)")) ∧
    ((ClassifyLicensesWithContext dualWorld ⟨[]⟩ ["vendor/h/r/LICENSE"]).1.GetResults ≠ [] →
      ∃ m, classify dualWorld ["vendor/h/r/LICENSE"] = .ok m ∧
        (m.map Prod.fst).Nodup ∧
        (∀ f, f ∈ m.map Prod.fst ↔
          ∃ r ∈ (ClassifyLicensesWithContext dualWorld ⟨[]⟩
            ["vendor/h/r/LICENSE"]).1.GetResults, r.Filename = f) ∧
        ∀ f, mapGet m f =
          lastName (ClassifyLicensesWithContext dualWorld ⟨[]⟩
            ["vendor/h/r/LICENSE"]).1.GetResults f) :=
  classify_of_results dualWorld ["vendor/h/r/LICENSE"] rfl (by decide)

theorem classify_dual_example :
    (ClassifyLicensesWithContext dualWorld ⟨[]⟩ ["vendor/h/r/LICENSE"]).1.GetResults.map
      (fun r => (r.Filename, r.Name)) =
      [("vendor/h/r/LICENSE", "MIT"), ("vendor/h/r/LICENSE", "Apache-2.0")] ∧
    lastName (ClassifyLicensesWithContext dualWorld ⟨[]⟩ ["vendor/h/r/LICENSE"]).1.GetResults
      "vendor/h/r/LICENSE" = some "Apache-2.0" := by
  decide

/-! ## The allow-list -/

theorem checkAllowed_snd (allowed : List String) :
    ∀ (l : Report) (s : Option GoError × List String),
      (checkAllowed allowed l s).2 =
        s.2 ++ (l.map Prod.fst).filter (fun k => decide (k ∉ allowed))
  | [], s => by simp [checkAllowed]
  | (k, deps) :: rest, s => by
    by_cases h : k ∈ allowed
    · simp [checkAllowed, h, checkAllowed_snd allowed rest]
    · simp [checkAllowed, h, checkAllowed_snd allowed rest]

theorem checkAllowed_fst (allowed : List String) :
    ∀ (l : Report) (s : Option GoError × List String),
      (checkAllowed allowed l s).1 =
        if (l.map Prod.fst).filter (fun k => decide (k ∉ allowed)) = [] then s.1
        else some (.errorsNew "forbidden license")
  | [], s => by simp [checkAllowed]
  | (k, deps) :: rest, s => by
    by_cases h : k ∈ allowed
    · have hk : List.filter (fun k => decide (k ∉ allowed)) (k :: rest.map Prod.fst) =
          List.filter (fun k => decide (k ∉ allowed)) (rest.map Prod.fst) :=
        List.filter_cons_of_neg (by simp [h])
      simp only [checkAllowed, List.map_cons]
      rw [if_neg (not_not.2 h), checkAllowed_fst allowed rest]
      simp only [hk]
    · have hk : List.filter (fun k => decide (k ∉ allowed)) (k :: rest.map Prod.fst) =
          k :: List.filter (fun k => decide (k ∉ allowed)) (rest.map Prod.fst) :=
        List.filter_cons_of_pos (by simp [h])
      simp only [checkAllowed, List.map_cons]
      rw [if_pos h, checkAllowed_fst allowed rest]
      simp only [hk]
      split <;> simp

theorem keys_mapAppend (k v : String) :
    ∀ m : Report,
      (mapAppend m k v).map Prod.fst =
        if k ∈ m.map Prod.fst then m.map Prod.fst else m.map Prod.fst ++ [k]
  | [] => by simp [mapAppend]
  | (a, b) :: rest => by
    have ih := keys_mapAppend k v rest
    by_cases h : a = k
    · simp [mapAppend, h]
    · have h' : k ≠ a := fun e => h e.symm
      by_cases hm : k ∈ rest.map Prod.fst
      · rw [if_pos hm] at ih
        have hm' : k ∈ ((a, b) :: rest).map Prod.fst := by
          simp only [List.map_cons, List.mem_cons]
          exact Or.inr hm
        rw [if_pos hm']
        simp [mapAppend, h, ih]
      · rw [if_neg hm] at ih
        have hm' : k ∉ ((a, b) :: rest).map Prod.fst := by
          simp only [List.map_cons, List.mem_cons, not_or]
          exact ⟨h', hm⟩
        rw [if_neg hm']
        simp [mapAppend, h, ih]

theorem keys_mapAppend_nodup (k v : String) (m : Report)
    (h : (m.map Prod.fst).Nodup) : ((mapAppend m k v).map Prod.fst).Nodup := by
  rw [keys_mapAppend]
  by_cases hm : k ∈ m.map Prod.fst
  · rw [if_pos hm]; exact h
  · rw [if_neg hm]
    exact List.Nodup.append h (List.nodup_singleton k) (by simpa using hm)

theorem scanRepos_nodup (upper : String → String) (c : Classifier) (vendorPath reposPath : String) :
    ∀ (repos : List (String × DirTree)) (s : Scan),
      (s.output.map Prod.fst).Nodup →
      ((scanRepos upper c vendorPath reposPath repos s).output.map Prod.fst).Nodup
  | [], _, h => h
  | (repo, t) :: rest, s, h => by
    simp only [scanRepos]
    apply scanRepos_nodup upper c vendorPath reposPath rest
    simp only
    split
    · exact keys_mapAppend_nodup _ _ _ h
    · exact h

theorem scanHosts_nodup (upper : String → String) (c : Classifier) (vendorPath hostsPath : String) :
    ∀ (hosts : List (String × DirTree)) (s : Scan),
      (s.output.map Prod.fst).Nodup →
      ((scanHosts upper c vendorPath hostsPath hosts s).output.map Prod.fst).Nodup
  | [], _, h => h
  | (host, t) :: rest, s, h => by
    simp only [scanHosts]
    apply scanHosts_nodup upper c vendorPath hostsPath rest
    exact scanRepos_nodup upper c vendorPath _ _ s h

theorem bucketLicences_nodup (vendorPath : String) :
    ∀ (l : List (String × String)) (m : Report),
      (m.map Prod.fst).Nodup → ((bucketLicences vendorPath l m).map Prod.fst).Nodup
  | [], _, h => h
  | (path, licence) :: rest, m, h => by
    simp only [bucketLicences]
    exact bucketLicences_nodup vendorPath rest _ (keys_mapAppend_nodup _ _ _ h)

theorem Process_output_nodup (c : Classifier) (w : World) (vendorPath outputPath : String)
    (root : DirTree) :
    ((c.Process w vendorPath outputPath root).output.map Prod.fst).Nodup := by
  have hs : ((vendorScan w.toUpper c vendorPath root).output.map Prod.fst).Nodup :=
    scanHosts_nodup w.toUpper c vendorPath _ _ _ (by simp)
  cases hc : classify w (vendorScan w.toUpper c vendorPath root).licenseFiles with
  | error err => rw [Process_output_of_error c w vendorPath outputPath root err hc]; exact hs
  | ok licences =>
    rw [Process_output_of_ok c w vendorPath outputPath root licences hc]
    exact bucketLicences_nodup vendorPath _ _ hs

/-- Claim C9.  In a run of `Process` that reaches the allow-list check, whatever the
order in which the buckets of the report are ranged over: with a non-empty allow-list
the license names logged as violations are, once each, exactly the bucket names of the
report that are not in the allow-list, and the returned error is "forbidden license" if
and only if some bucket is logged, and absent otherwise; with an empty allow-list
nothing is logged and no error is returned. -/
theorem Process_allow_list (c : Classifier) (w : World) (vendorPath outputPath : String)
    (root : DirTree) (licences : List (String × String))
    (horder : ∀ m, (w.rangeOutput m).Perm m)
    (hclass : classify w (c.Process w vendorPath outputPath root).licenseFiles = .ok licences)
    (hwrite : outputPath = "" ∨
      w.writeFile outputPath (c.Process w vendorPath outputPath root).output = none) :
    (c.allowedLicenses w ≠ [] →
      (∀ licence, licence ∈ (c.Process w vendorPath outputPath root).flagged ↔
        (licence ∈ (c.Process w vendorPath outputPath root).output.map Prod.fst ∧
          licence ∉ c.allowedLicenses w)) ∧
      (c.Process w vendorPath outputPath root).flagged.Nodup ∧
      ((c.Process w vendorPath outputPath root).err = some (.errorsNew "forbidden license") ↔
        (c.Process w vendorPath outputPath root).flagged ≠ []) ∧
      ((c.Process w vendorPath outputPath root).err = none ↔
        (c.Process w vendorPath outputPath root).flagged = [])) ∧
    (c.allowedLicenses w = [] →
      (c.Process w vendorPath outputPath root).flagged = [] ∧
      (c.Process w vendorPath outputPath root).err = none) := by
  have hp := Process_check_of_ok c w vendorPath outputPath root licences hclass hwrite
  have hnd := Process_output_nodup c w vendorPath outputPath root
  generalize c.Process w vendorPath outputPath root = r at hp hnd
  constructor
  · intro hne
    have hlen : (c.allowedLicenses w).length > 0 := List.length_pos.2 hne
    rw [if_pos hlen] at hp
    have hf : r.flagged = ((w.rangeOutput r.output).map Prod.fst).filter
        (fun k => decide (k ∉ c.allowedLicenses w)) := by
      have := congrArg Prod.snd hp
      simpa [checkAllowed_snd] using this
    have he : r.err = if ((w.rangeOutput r.output).map Prod.fst).filter
        (fun k => decide (k ∉ c.allowedLicenses w)) = [] then none
        else some (.errorsNew "forbidden license") := by
      have := congrArg Prod.fst hp
      simpa [checkAllowed_fst] using this
    rw [← hf] at he
    have hperm : ((w.rangeOutput r.output).map Prod.fst).Perm (r.output.map Prod.fst) :=
      (horder r.output).map _
    refine ⟨?_, ?_, ?_, ?_⟩
    · intro licence
      rw [hf, List.mem_filter, hperm.mem_iff]
      simp
    · rw [hf]
      exact (hperm.nodup_iff.2 hnd).filter _
    · rw [he]
      by_cases h : r.flagged = [] <;> simp [h]
    · rw [he]
      by_cases h : r.flagged = [] <;> simp [h]
  · intro hnil
    have hlen : ¬ (c.allowedLicenses w).length > 0 := by simp [hnil]
    rw [if_neg hlen] at hp
    exact ⟨congrArg Prod.snd hp, congrArg Prod.fst hp⟩

/-- Witness for `Process_allow_list`: the allow-list holds MIT only and the report has
the buckets MIT and GPL-3.0. -/
theorem Process_allow_list_witness :
    ((classifierOfFlags ".license" defaultFiles).allowedLicenses mitAndGplWorld ≠ [] →
      (∀ licence, licence ∈ ((classifierOfFlags ".license" defaultFiles).Process
          mitAndGplWorld "vendor/" "" mitAndGpl).flagged ↔
        (licence ∈ ((classifierOfFlags ".license" defaultFiles).Process
          mitAndGplWorld "vendor/" "" mitAndGpl).output.map Prod.fst ∧
          licence ∉ (classifierOfFlags ".license" defaultFiles).allowedLicenses
            mitAndGplWorld)) ∧
      ((classifierOfFlags ".license" defaultFiles).Process
          mitAndGplWorld "vendor/" "" mitAndGpl).flagged.Nodup ∧
      (((classifierOfFlags ".license" defaultFiles).Process
          mitAndGplWorld "vendor/" "" mitAndGpl).err = some (.errorsNew "forbidden license") ↔
        ((classifierOfFlags ".license" defaultFiles).Process
          mitAndGplWorld "vendor/" "" mitAndGpl).flagged ≠ []) ∧
      (((classifierOfFlags ".license" defaultFiles).Process
          mitAndGplWorld "vendor/" "" mitAndGpl).err = none ↔
        ((classifierOfFlags ".license" defaultFiles).Process
          mitAndGplWorld "vendor/" "" mitAndGpl).flagged = [])) ∧
    ((classifierOfFlags ".license" defaultFiles).allowedLicenses mitAndGplWorld = [] →
      ((classifierOfFlags ".license" defaultFiles).Process
          mitAndGplWorld "vendor/" "" mitAndGpl).flagged = [] ∧
      ((classifierOfFlags ".license" defaultFiles).Process
          mitAndGplWorld "vendor/" "" mitAndGpl).err = none) :=
  Process_allow_list (classifierOfFlags ".license" defaultFiles) mitAndGplWorld "vendor/" ""
    mitAndGpl [("vendor/h/m/LICENSE", "MIT"), ("vendor/h/g/COPYING", "GPL-3.0")]
    (fun _ => List.Perm.refl _) rfl (Or.inl rfl)

theorem Process_allow_list_example :
    (classifierOfFlags ".license" defaultFiles).allowedLicenses mitAndGplWorld = ["MIT"] ∧
    ((classifierOfFlags ".license" defaultFiles).Process
      mitAndGplWorld "vendor/" "" mitAndGpl).output =
      [("MIT", ["h/m/LICENSE"]), ("GPL-3.0", ["h/g/COPYING"])] ∧
    ((classifierOfFlags ".license" defaultFiles).Process
      mitAndGplWorld "vendor/" "" mitAndGpl).flagged = ["GPL-3.0"] ∧
    ((classifierOfFlags ".license" defaultFiles).Process
      mitAndGplWorld "vendor/" "" mitAndGpl).err = some (.errorsNew "forbidden license") := by
  decide

end License
